import Mathlib

/-!
Verification development for a Solidity-to-ERC7730 descriptor generator and
its companion descriptor checker.  The Python sources (generate_erc7730.py,
validate_erc7730.py) are shallowly embedded below: strings are `String` /
`List Char`, regular-expression search is embedded by faithful backtracking
matchers specialised to the four patterns the code uses, the scanner is a
structural recursion over the split lines, and JSON documents are a small
inductive `JsonV` whose object fields keep Python dict insertion order.
-/

/-! ### Character classes and basic Python string operations

The embeddings model Python semantics on the ASCII range: the regex class
backslash-w is alphanumerics plus underscore, and backslash-s / `str.strip`
use the six ASCII whitespace characters.
-/

def toL (s : String) : List Char := s.data

def ofL (l : List Char) : String := String.mk l

def pySpaceB (c : Char) : Bool :=
  c = ' ' || c = '\t' || c = '\n' || c = '\r' || c = '\x0b' || c = '\x0c'

def wordB (c : Char) : Bool := c.isAlphanum || c = '_'

def oor {α : Type} : Option α → Option α → Option α
  | some a, _ => some a
  | none, b => b

/-- Python `str.strip()`. -/
def pyStrip (s : List Char) : List Char :=
  ((s.dropWhile pySpaceB).reverse.dropWhile pySpaceB).reverse

def pyStripS (s : String) : String := ofL (pyStrip (toL s))

/-- Python `str.lower()` (ASCII). -/
def pyLowerS (s : String) : String := ofL ((toL s).map Char.toLower)

/-- Python substring containment `needle in hay`. -/
def containsSub (needle : List Char) : List Char → Bool
  | [] => needle.isEmpty
  | c :: rest => needle.isPrefixOf (c :: rest) || containsSub needle rest

def containsSubS (hay pat : String) : Bool := containsSub (toL pat) (toL hay)

def pyStartsWithS (s pre : String) : Bool := (toL pre).isPrefixOf (toL s)

def pyEndsWithS (s suf : String) : Bool := (toL suf).isSuffixOf (toL s)

def anySub (pats : List String) (s : String) : Bool :=
  pats.any (fun p => containsSubS s p)

/-- Python `str.replace(needle, repl)`, all occurrences, left to right.
The fuel is the string length; every step consumes at least one character,
so the fuel never runs out on a nonempty needle. -/
def replaceAllAux : Nat → List Char → List Char → List Char → List Char
  | 0, _, _, s => s
  | _ + 1, _, _, [] => []
  | n + 1, needle, repl, c :: rest =>
    if needle.isPrefixOf (c :: rest) && !needle.isEmpty then
      repl ++ replaceAllAux n needle repl ((c :: rest).drop needle.length)
    else
      c :: replaceAllAux n needle repl rest

def pyReplaceAll (s needle repl : List Char) : List Char :=
  replaceAllAux s.length needle repl s

/-- Prefix of a string before the first dot: Python `s.split('.')[0]`. -/
def takeUntilDot : List Char → List Char
  | [] => []
  | c :: rest => if c = '.' then [] else c :: takeUntilDot rest

/-- Python `str.title()` (ASCII): a letter is uppercased after a non-letter
and lowercased after a letter. -/
def pyTitleAux : Bool → List Char → List Char
  | _, [] => []
  | prevAlpha, c :: rest =>
    if c.isAlpha then
      (if prevAlpha then c.toLower else c.toUpper) :: pyTitleAux true rest
    else
      c :: pyTitleAux false rest

def pyTitle (s : List Char) : List Char := pyTitleAux false s

/-- Python `str.split(sep)` for a single separator character. -/
def splitOnChar (sep : Char) : List Char → List (List Char)
  | [] => [[]]
  | c :: rest =>
    if c = sep then [] :: splitOnChar sep rest
    else
      match splitOnChar sep rest with
      | [] => [[c]]
      | g :: gs => (c :: g) :: gs

/-- Python `sep.join(parts)` for a single separator character. -/
def joinCharSep (sep : Char) : List (List Char) → List Char
  | [] => []
  | [x] => x
  | x :: xs => x ++ sep :: joinCharSep sep xs

def joinWith (sep : String) : List String → String
  | [] => ""
  | [x] => x
  | x :: xs => x ++ sep ++ joinWith sep xs

/-! ### Backtracking regex combinators

Continuation-passing matchers reproducing Python `re` semantics: greedy
quantifiers try the longest consumption first and backtrack, the lazy
quantifier tries the shortest first, and `search` scans start positions
left to right. -/

/-- Match a literal, returning the remainder. -/
def matchLit : List Char → List Char → Option (List Char)
  | [], s => some s
  | _ :: _, [] => none
  | c :: ls, d :: s => if c = d then matchLit ls s else none

/-- Greedy `cls*`: consume as many class characters as possible, then
backtrack one at a time into the continuation. -/
def clsStar {α : Type} (p : Char → Bool) (k : List Char → Option α) :
    List Char → Option α
  | [] => k []
  | c :: rest =>
    if p c then oor (clsStar p k rest) (k (c :: rest)) else k (c :: rest)

/-- Greedy `cls+`. -/
def clsPlus {α : Type} (p : Char → Bool) (k : List Char → Option α) :
    List Char → Option α
  | [] => none
  | c :: rest => if p c then clsStar p k rest else none

/-- Greedy capturing `(cls*)`: the continuation receives the captured
characters and the remainder. -/
def clsStarCapt {α : Type} (p : Char → Bool)
    (k : List Char → List Char → Option α) : List Char → Option α
  | [] => k [] []
  | c :: rest =>
    if p c then
      oor (clsStarCapt p (fun cap rem => k (c :: cap) rem) rest) (k [] (c :: rest))
    else k [] (c :: rest)

/-- Greedy capturing `(cls+)`. -/
def clsPlusCapt {α : Type} (p : Char → Bool)
    (k : List Char → List Char → Option α) : List Char → Option α
  | [] => none
  | c :: rest =>
    if p c then clsStarCapt p (fun cap rem => k (c :: cap) rem) rest else none

/-- Lazy capturing `(.*?)` (DOTALL): shortest consumption first. -/
def lazyStarCapt {α : Type} (k : List Char → List Char → Option α) :
    List Char → Option α
  | [] => k [] []
  | c :: rest =>
    oor (k [] (c :: rest)) (lazyStarCapt (fun cap rem => k (c :: cap) rem) rest)

/-- `re.search`: try the matcher at each start position, leftmost first. -/
def searchAux {α : Type} (m : List Char → Option α) : List Char → Option α
  | [] => m []
  | c :: rest => oor (m (c :: rest)) (searchAux m rest)

/-! ### The four regex patterns of generate_erc7730.py

CONTRACT_PATTERN  = contract backslash-s+ (backslash-w+) backslash-s+ (?:is backslash-s+)? [{ backslash-s]
FUNCTION_PATTERN  = function backslash-s+ (backslash-w+) backslash-s* ( (.*?) ) backslash-s* (external|public)   with DOTALL
PARAM_PATTERN     = (backslash-w+ (?:[])?) backslash-s+ (backslash-w+)
notice pattern    = @notice backslash-s+ ([^@]+)
-/

/-- The final character class `[{ backslash-s]` of CONTRACT_PATTERN. -/
def brSp {α : Type} (k : List Char → Option α) : List Char → Option α
  | [] => none
  | c :: rest => if c = '{' || pySpaceB c then k rest else none

/-- `(?:is backslash-s+)? [{ backslash-s]`: the greedy optional group is tried first. -/
def contractTail {α : Type} (k : List Char → Option α) (s : List Char) : Option α :=
  oor
    (match matchLit (toL "is") s with
     | some s1 => clsPlus pySpaceB (brSp k) s1
     | none => none)
    (brSp k s)

/-- CONTRACT_PATTERN matched at the start of `s`; returns group 1. -/
def contractMatchAt (s : List Char) : Option (List Char) :=
  match matchLit (toL "contract") s with
  | none => none
  | some s1 =>
    clsPlus pySpaceB
      (fun s2 =>
        clsPlusCapt wordB
          (fun cap s3 =>
            clsPlus pySpaceB (fun s4 => contractTail (fun _ => some cap) s4) s3)
          s2)
      s1

def searchContract : List Char → Option (List Char) := searchAux contractMatchAt

/-- The trailing `(external|public)` alternation of FUNCTION_PATTERN. -/
def visAlt (nm ps : List Char) (s : List Char) :
    Option (List Char × List Char × List Char) :=
  oor ((matchLit (toL "external") s).map (fun _ => (nm, ps, toL "external")))
      ((matchLit (toL "public") s).map (fun _ => (nm, ps, toL "public")))

/-- FUNCTION_PATTERN matched at the start of `s`; returns
(group 1 name, group 2 parameter text, group 3 visibility). -/
def functionMatchAt (s : List Char) : Option (List Char × List Char × List Char) :=
  match matchLit (toL "function") s with
  | none => none
  | some s1 =>
    clsPlus pySpaceB
      (fun s2 =>
        clsPlusCapt wordB
          (fun nm s3 =>
            clsStar pySpaceB
              (fun s4 =>
                match s4 with
                | '(' :: s5 =>
                  lazyStarCapt
                    (fun ps s6 =>
                      match s6 with
                      | ')' :: s7 => clsStar pySpaceB (visAlt nm ps) s7
                      | _ => none)
                    s5
                | _ => none)
              s3)
          s2)
      s1

def searchFunction : List Char → Option (List Char × List Char × List Char) :=
  searchAux functionMatchAt

/-- Tail `backslash-s+ (backslash-w+)` of PARAM_PATTERN. -/
def paramRest (ty : List Char) (s : List Char) : Option (List Char × List Char) :=
  clsPlus pySpaceB (fun s2 => clsPlusCapt wordB (fun nm _ => some (ty, nm)) s2) s

/-- PARAM_PATTERN matched at the start of `s`; returns (type, name).
The optional `[]` suffix is greedy: tried before the bare type. -/
def paramMatchAt (s : List Char) : Option (List Char × List Char) :=
  clsPlusCapt wordB
    (fun ty s1 =>
      oor
        (match s1 with
         | '[' :: ']' :: s2 => paramRest (ty ++ ['[', ']']) s2
         | _ => none)
        (paramRest ty s1))
    s

def searchParam : List Char → Option (List Char × List Char) :=
  searchAux paramMatchAt

/-- `@notice backslash-s+ ([^@]+)` matched at the start of `s`; returns group 1. -/
def noticeMatchAt (s : List Char) : Option (List Char) :=
  match matchLit (toL "@notice") s with
  | none => none
  | some s1 =>
    clsPlus pySpaceB
      (fun s2 => clsPlusCapt (fun c => !(c = '@')) (fun cap _ => some cap) s2)
      s1

def searchNotice : List Char → Option (List Char) := searchAux noticeMatchAt

/-! ### Whole-word removal of memory / calldata / storage

Embeds `re.sub(r'\b(memory|calldata|storage)\b', '', part)`.  The scan walks
the string left to right tracking whether the previous character of the
original string was a word character (the left side of the word-boundary
assertion); a keyword matches only if it is also followed by a non-word
character or the end. -/

def tryKw1 (kw : List Char) (s : List Char) : Option (List Char) :=
  if kw.isPrefixOf s then
    let rem := s.drop kw.length
    match rem with
    | [] => some rem
    | c :: _ => if wordB c then none else some rem
  else none

def tryKw (s : List Char) : Option (List Char) :=
  oor (tryKw1 (toL "memory") s)
    (oor (tryKw1 (toL "calldata") s) (tryKw1 (toL "storage") s))

def subKwAux : Nat → Bool → List Char → List Char
  | 0, _, s => s
  | _ + 1, _, [] => []
  | n + 1, prevW, c :: rest =>
    if prevW then c :: subKwAux n (wordB c) rest
    else
      match tryKw (c :: rest) with
      | some rem => subKwAux n true rem
      | none => c :: subKwAux n (wordB c) rest

def subKeywords (s : List Char) : List Char := subKwAux s.length false s

/-! ### Data model (generate_erc7730.py dataclasses) -/

structure FunctionParameter where
  name : String
  type : String
deriving DecidableEq, Repr

structure FunctionSignature where
  name : String
  parameters : List FunctionParameter
  visibility : String
  natspec : Option String
deriving DecidableEq, Repr

/-- `FunctionParameter.get_format`: the display-format decision table. -/
def FunctionParameter.get_format (p : FunctionParameter) : String :=
  if p.type = "address" then "addressName"
  else if pyStartsWithS p.type "uint" || pyStartsWithS p.type "int" then
    if anySub ["amount", "value", "balance"] (pyLowerS p.name) then "tokenAmount"
    else if anySub ["timestamp", "time", "deadline"] (pyLowerS p.name) then "date"
    else if anySub ["duration", "period"] (pyLowerS p.name) then "duration"
    else if anySub ["bps", "basis", "percent"] (pyLowerS p.name) then "raw"
    else "raw"
  else if pyStartsWithS p.type "bytes" then
    if p.type = "bytes" then "calldata" else "raw"
  else if p.type = "string" then "raw"
  else if p.type = "bool" then "enum"
  else if pyEndsWithS p.type "[]" then "raw"
  else "raw"

def FunctionParameter.needs_token_path (p : FunctionParameter) : Bool :=
  p.get_format = "tokenAmount"

/-- `FunctionSignature.get_signature`: `name(type1,type2,...)`. -/
def FunctionSignature.get_signature (f : FunctionSignature) : String :=
  f.name ++ "(" ++ joinWith "," (f.parameters.map (fun p => p.type)) ++ ")"

/-- Name-prefix fallback table of `get_intent`.
On an empty name the Python indexing `name[0]` would raise; scanner-produced
names are nonempty, and the embedding returns the empty string there. -/
def intentFromName (name : String) : String :=
  if pyStartsWithS name "transfer" then "Transfer tokens"
  else if pyStartsWithS name "approve" then "Approve token spending"
  else if pyStartsWithS name "execute" then "Execute operation"
  else if pyStartsWithS name "deposit" then "Deposit funds"
  else if pyStartsWithS name "withdraw" then "Withdraw funds"
  else if pyStartsWithS name "swap" then "Swap tokens"
  else if pyStartsWithS name "mint" then "Mint tokens"
  else if pyStartsWithS name "burn" then "Burn tokens"
  else if pyStartsWithS name "grant" then "Grant permissions"
  else if pyStartsWithS name "revoke" then "Revoke permissions"
  else if pyStartsWithS name "set" then "Update settings"
  else if pyStartsWithS name "update" then "Update data"
  else if pyStartsWithS name "claim" then "Claim rewards"
  else if pyStartsWithS name "stake" then "Stake tokens"
  else if pyStartsWithS name "unstake" then "Unstake tokens"
  else
    match toL name with
    | [] => ""
    | c :: rest => ofL (c.toUpper :: rest)

/-- `FunctionSignature.get_intent`: NatSpec `@notice` text first
(stripped, comment markers removed, cut at the first period), then the
name-prefix fallback table. -/
def FunctionSignature.get_intent (f : FunctionSignature) : String :=
  let fromDoc : Option String :=
    match f.natspec with
    | none => none
    | some d =>
      if d = "" then none
      else
        match searchNotice (toL d) with
        | none => none
        | some grp =>
          let t1 := pyStrip grp
          let t2 := pyStrip (pyReplaceAll (pyReplaceAll t1 (toL "*/") []) (toL "*") [])
          let t3 := pyStrip (takeUntilDot t2)
          if t3.isEmpty then none else some (ofL t3)
  match fromDoc with
  | some i => i
  | none => intentFromName f.name

/-- `FunctionSignature.generate_interpolated_intent`. -/
def FunctionSignature.generate_interpolated_intent (f : FunctionSignature) : String :=
  let intent := f.get_intent
  if f.parameters.length > 0 then
    let important :=
      (f.parameters.filter
        (fun p => anySub ["amount", "value", "to", "recipient", "token"] (pyLowerS p.name))).map
        (fun p => p.name)
    if important.isEmpty then intent
    else
      intent ++ " " ++
        joinWith " " ((important.take 2).map (fun p => "\x7b" ++ p ++ "\x7d"))
  else intent

/-! ### SolidityParser -/

/-- `_get_function_text` inner loop over the lines from the candidate down:
accumulate lines, track the running parenthesis count and whether an opening
parenthesis was seen, and stop after the first line on which the count is
back to zero and a brace or semicolon occurs. -/
def funcTextAux : List (List Char) → Int → Bool → List (List Char)
  | [], _, _ => []
  | l :: rest, pc, started =>
    let pc2 := pc + (l.count '(' : Int) - (l.count ')' : Int)
    let started2 := started || l.any (fun c => c = '(')
    if started2 && pc2 = 0 && (l.any (fun c => c = '{') || l.any (fun c => c = ';')) then
      [l]
    else
      l :: funcTextAux rest pc2 started2

def getFunctionText (lines : List (List Char)) (i : Nat) : List Char :=
  joinCharSep ' ' (funcTextAux (lines.drop i) 0 false)

/-- `_get_natspec` backward scan, expressed over the reversed prefix of the
line list (nearest line above the candidate first).  The accumulator holds
the stripped comment lines already collected, in source order. -/
def natspecLoop : List (List Char) → List (List Char) → Bool → List (List Char)
  | [], acc, _ => acc
  | l :: rest, acc, inC =>
    if (toL "*/").isSuffixOf (pyStrip l) then natspecLoop rest (pyStrip l :: acc) true
    else if inC then
      if (toL "/**").isPrefixOf (pyStrip l) then pyStrip l :: acc
      else natspecLoop rest (pyStrip l :: acc) true
    else if !(pyStrip l).isEmpty && !((toL "//").isPrefixOf (pyStrip l)) then acc
    else natspecLoop rest acc inC

def getNatspec (lines : List (List Char)) (i : Nat) : Option (List Char) :=
  match natspecLoop ((lines.take i).reverse) [] false with
  | [] => none
  | ls => some (joinCharSep '\n' ls)

/-- `_split_parameters`: split on commas at bracket depth zero. -/
def splitParamsAux : List Char → List Char → Int → List (List Char)
  | [], cur, _ => if cur.isEmpty then [] else [cur.reverse]
  | c :: rest, cur, depth =>
    if c = '(' || c = '[' then splitParamsAux rest (c :: cur) (depth + 1)
    else if c = ')' || c = ']' then splitParamsAux rest (c :: cur) (depth - 1)
    else if c = ',' && depth = 0 then cur.reverse :: splitParamsAux rest [] 0
    else splitParamsAux rest (c :: cur) depth

def splitParameters (s : List Char) : List (List Char) := splitParamsAux s [] 0

/-- `_parse_parameters`: per segment, strip, remove storage-location
keywords, and match PARAM_PATTERN; unmatched segments are dropped. -/
def parseParameters (ps : List Char) : List FunctionParameter :=
  if (pyStrip ps).isEmpty then []
  else
    (splitParameters ps).filterMap
      (fun part =>
        let p1 := pyStrip part
        if p1.isEmpty then none
        else
          let p2 := pyStrip (subKeywords p1)
          match searchParam p2 with
          | some (ty, nm) => some ⟨ofL nm, ofL ty⟩
          | none => none)

/-- `_parse_functions` body for one line index: candidate test, NatSpec
lookup, signature extent, FUNCTION_PATTERN, view/pure filter, parameters. -/
def processLine (lines : List (List Char)) (i : Nat) : Option FunctionSignature :=
  if containsSub (toL "function") (lines.getD i []) &&
      (containsSub (toL "external") (lines.getD i []) ||
        containsSub (toL "public") (lines.getD i [])) then
    match searchFunction (getFunctionText lines i) with
    | some (nm, ps, vis) =>
      if containsSub (toL "view") (getFunctionText lines i) ||
          containsSub (toL "pure") (getFunctionText lines i) then none
      else some ⟨ofL nm, parseParameters ps, ofL vis, (getNatspec lines i).map ofL⟩
    | none => none
  else none

def parseFunctions (content : String) : List FunctionSignature :=
  let lines := splitOnChar '\n' (toL content)
  (List.range lines.length).filterMap (processLine lines)

/-- `SolidityParser.parse`: contract name via CONTRACT_PATTERN search
(raising, i.e. `.error`, when absent), then the function records. -/
def SolidityParser.parse (content : String) :
    Except String (String × List FunctionSignature) :=
  match searchContract (toL content) with
  | some nm => .ok (ofL nm, parseFunctions content)
  | none => .error "Could not find contract declaration"

/-! ### JSON documents

Python dicts preserve insertion order; `JsonV.obj` keeps the fields as an
ordered association list, and `dictInsert` reproduces dict assignment
(overwrite keeps the original position). -/

inductive JsonV where
  | str : String → JsonV
  | num : Int → JsonV
  | arr : List JsonV → JsonV
  | obj : List (String × JsonV) → JsonV
deriving Repr

def jGet : JsonV → String → Option JsonV
  | .obj kvs, k => (kvs.find? (fun kv => kv.1 = k)).map (fun kv => kv.2)
  | _, _ => none

def jGetD (d : JsonV) (k : String) (dflt : JsonV) : JsonV := (jGet d k).getD dflt

def jMem (d : JsonV) (k : String) : Bool := (jGet d k).isSome

def dictInsert (kvs : List (String × JsonV)) (k : String) (v : JsonV) :
    List (String × JsonV) :=
  match kvs with
  | [] => [(k, v)]
  | (k1, v1) :: rest =>
    if k1 = k then (k1, v) :: rest else (k1, v1) :: dictInsert rest k v

/-! ### ERC7730Generator -/

def SCHEMA_URL : String :=
  "https://eips.ethereum.org/assets/eip-7730/erc7730-v1.schema.json"

/-- `_find_token_param`: first parameter of the function whose type is
exactly `address` and whose lower-cased name contains `token`. -/
def find_token_param (f : FunctionSignature) : Option FunctionParameter :=
  f.parameters.find? (fun p => p.type = "address" && containsSubS (pyLowerS p.name) "token")

/-- `_generate_label`: abbreviation table, else a space before every
upper-case letter, stripped then title-cased. -/
def generate_label (p : FunctionParameter) : String :=
  match [("bps", "Basis Points"), ("addr", "Address"), ("amt", "Amount"),
         ("num", "Number")].find? (fun ab => pyLowerS p.name = ab.1) with
  | some ab => ab.2
  | none =>
    ofL (pyTitle (pyStrip ((toL p.name).flatMap
      (fun c => if c.isUpper then [' ', c] else [c]))))

def addrParamsJson : JsonV :=
  .obj [("types", .arr [.str "eoa", .str "contract"]), ("sources", .arr [.str "trust"])]

def boolEnumJson : JsonV :=
  .obj [("0", .str "False"), ("1", .str "True")]

/-- `_generate_field_spec`: array parameters become container fields;
otherwise path/label/format plus the format-specific params object. -/
def generate_field_spec (p : FunctionParameter) (f : FunctionSignature) : JsonV :=
  if pyEndsWithS p.type "[]" then
    .obj [("path", .str p.name), ("label", .str (generate_label p)), ("fields", .arr [])]
  else
    let base := [("path", .str p.name), ("label", .str (generate_label p)),
                 ("format", .str p.get_format)]
    let fmt := p.get_format
    if fmt = "tokenAmount" then
      match find_token_param f with
      | some tp => .obj (base ++ [("params", .obj [("tokenPath", .str tp.name)])])
      | none => .obj base
    else if fmt = "addressName" then
      .obj (base ++ [("params", addrParamsJson)])
    else if fmt = "enum" && p.type = "bool" then
      .obj (base ++ [("params", .obj [("enumPath", .str "$.metadata.enums.boolean")])])
    else .obj base

/-- `_generate_format_for_function`.  The Python dict is created with keys
intent and fields, and interpolatedIntent is assigned afterwards, so the
insertion order is intent, fields, interpolatedIntent. -/
def generate_format_for_function (f : FunctionSignature) : JsonV :=
  let fields := JsonV.arr (f.parameters.map (fun p => generate_field_spec p f))
  if f.parameters.length > 0 then
    .obj [("intent", .str f.get_intent), ("fields", fields),
          ("interpolatedIntent", .str f.generate_interpolated_intent)]
  else
    .obj [("intent", .str f.get_intent), ("fields", fields)]

/-- `_generate_display`: formats keyed by signature, dict-assignment per
function (a duplicate signature overwrites in place). -/
def generate_display (funcs : List FunctionSignature) : JsonV :=
  .obj [("formats", .obj (funcs.foldl
    (fun m f => dictInsert m f.get_signature (generate_format_for_function f)) []))]

/-- Whether any function has a `bool` parameter: the loop of
`_generate_metadata` populates the enums dict exactly in that case. -/
def hasBoolParam (funcs : List FunctionSignature) : Bool :=
  funcs.any (fun f => f.parameters.any (fun p => p.type = "bool"))

def generate_metadata (owner contractName : String)
    (funcs : List FunctionSignature) : JsonV :=
  let base := [("owner", JsonV.str owner), ("contractName", JsonV.str contractName),
               ("info", JsonV.obj [("url", .str ""), ("legalName", .str owner)])]
  if hasBoolParam funcs then
    .obj (base ++ [("enums", .obj [("boolean", boolEnumJson)])])
  else
    .obj base

/-- `_generate_context`: one deployment entry only when a (truthy) address
was supplied. -/
def generate_context (contractId : String) (chainId : Int)
    (address : Option String) : JsonV :=
  let deployments : List JsonV :=
    match address with
    | some a =>
      if a = "" then []
      else [.obj [("chainId", .num chainId), ("address", .str a)]]
    | none => []
  .obj [("$id", .str contractId), ("contract", .obj [("deployments", .arr deployments)])]

/-- `ERC7730Generator.generate`, with the constructor defaults
`owner or contract_name` and `contract_id or contract_name`. -/
def generate (contractName : String) (funcs : List FunctionSignature)
    (chainId : Int) (address owner contractId : Option String) : JsonV :=
  let ownerV := match owner with
    | some o => if o = "" then contractName else o
    | none => contractName
  let contractIdV := match contractId with
    | some c => if c = "" then contractName else c
    | none => contractName
  .obj [("$schema", .str SCHEMA_URL),
        ("context", generate_context contractIdV chainId address),
        ("metadata", generate_metadata ownerV contractName funcs),
        ("display", generate_display funcs)]

/-- `main` of generate_erc7730.py, reduced to its decision structure: a
parse failure exits with status 1 and writes nothing; success exits with
status 0 and writes the generated descriptor. -/
def mainRun (content : String) (chainId : Int)
    (address owner contractId : Option String) : Nat × Option JsonV :=
  match SolidityParser.parse content with
  | .error _ => (1, none)
  | .ok (nm, funcs) => (0, some (generate nm funcs chainId address owner contractId))

/-! ### ERC7730Validator

Each check is embedded as a function returning the messages it appends to
the three severity lists (errors, warnings, suggestions); `validate`
concatenates them in the call order of the Python `validate` method, so
each severity list comes out in exactly the order the Python run prints. -/

structure Findings where
  errors : List String
  warnings : List String
  info : List String
deriving Repr, DecidableEq

def Findings.append (a b : Findings) : Findings :=
  ⟨a.errors ++ b.errors, a.warnings ++ b.warnings, a.info ++ b.info⟩

def Findings.none : Findings := ⟨[], [], []⟩

def jArrD (d : JsonV) (k : String) : List JsonV :=
  match jGetD d k (.arr []) with
  | .arr l => l
  | _ => []

/-- Python falsiness of a JSON value (`if not metadata`). -/
def jFalsy : JsonV → Bool
  | .obj kvs => kvs.isEmpty
  | .arr l => l.isEmpty
  | .str s => s = ""
  | .num n => n = 0

def checkStructure (d : JsonV) : Findings :=
  ⟨(["$schema", "context", "display"].filter (fun f => !jMem d f)).map
      (fun f => "Missing required field: " ++ f), [], []⟩

def checkSchemaUrl (d : JsonV) : Findings :=
  match jGet d "$schema" with
  | some (.str s) =>
    if s = SCHEMA_URL then Findings.none
    else ⟨["Incorrect schema URL.\n  Expected: " ++ SCHEMA_URL ++ "\n  Got: " ++ s], [], []⟩
  | _ => ⟨["Incorrect schema URL.\n  Expected: " ++ SCHEMA_URL ++ "\n  Got: None"], [], []⟩

def checkDeployment (i : Nat) (dep : JsonV) : Findings :=
  let e1 : List String :=
    if !jMem dep "chainId" then ["Deployment " ++ toString i ++ " missing chainId"] else []
  match jGet dep "address" with
  | Option.none => ⟨e1 ++ ["Deployment " ++ toString i ++ " missing address"], [], []⟩
  | some (.str addr) =>
    let w : List String :=
      if addr = "0x0000000000000000000000000000000000000000" then
        ["Deployment " ++ toString i ++ " uses zero address (placeholder)"]
      else []
    let e2 : List String :=
      if !pyStartsWithS addr "0x" || addr.length ≠ 42 then
        ["Deployment " ++ toString i ++ " has invalid address format: " ++ addr]
      else []
    ⟨e1 ++ e2, w, []⟩
  | some _ =>
    ⟨e1 ++ ["Deployment " ++ toString i ++ " has invalid address format"], [], []⟩

def checkContext (d : JsonV) : Findings :=
  let context := jGetD d "context" (.obj [])
  let e1 : List String := if !jMem context "$id" then ["Missing context.$id"] else []
  let e2 : List String :=
    if !jMem context "contract" && !jMem context "eip712" then
      ["Context must have either 'contract' or 'eip712'"]
    else []
  let rest : Findings :=
    match jGet context "contract" with
    | Option.none => Findings.none
    | some contract =>
      let deployments := jArrD contract "deployments"
      if deployments.isEmpty then ⟨[], ["No deployments specified in context.contract"], []⟩
      else
        (deployments.enum.map (fun di => checkDeployment di.1 di.2)).foldl
          Findings.append Findings.none
  Findings.append ⟨e1 ++ e2, [], []⟩ rest

def hasTokenAmountFormats (d : JsonV) : Bool :=
  match jGetD (jGetD d "display" (.obj [])) "formats" (.obj []) with
  | .obj kvs =>
    kvs.any (fun kv =>
      (jArrD kv.2 "fields").any (fun f =>
        match jGet f "format" with
        | some (.str s) => s = "tokenAmount"
        | _ => false))
  | _ => false

def checkMetadata (d : JsonV) : Findings :=
  let metadata := jGetD d "metadata" (.obj [])
  if jFalsy metadata then ⟨[], ["No metadata section (optional but recommended)"], []⟩
  else
    let w1 : List String := if !jMem metadata "owner" then ["metadata.owner not specified"] else []
    let w2 : List String :=
      if !jMem metadata "contractName" then ["metadata.contractName not specified"] else []
    let info := jGetD metadata "info" (.obj [])
    let i1 : List String :=
      if jFalsy (jGetD info "url" (.obj [])) then ["Consider adding metadata.info.url"] else []
    let i2 : List String :=
      if hasTokenAmountFormats d && !jMem metadata "token" then
        ["Functions use tokenAmount format. Consider adding metadata.token with name, ticker, decimals"]
      else []
    ⟨[], w1 ++ w2, i1 ++ i2⟩

def checkField (signature : String) (index : Nat) (field : JsonV) : Findings :=
  let fid := signature ++ " field[" ++ toString index ++ "]"
  let e1 : List String := if !jMem field "path" then [fid ++ ": Missing 'path'"] else []
  let e2 : List String :=
    if !jMem field "format" && !jMem field "fields" then
      [fid ++ ": Must have either 'format' or 'fields' (for containers)"]
    else []
  let fmt : Option String :=
    match jGet field "format" with
    | some (.str s) => some s
    | _ => Option.none
  let i1 : List String :=
    if fmt = some "tokenAmount" && !jMem (jGetD field "params" (.obj [])) "tokenPath" then
      [fid ++ ": tokenAmount without tokenPath parameter. Consider linking to token address parameter"]
    else []
  let i2 : List String :=
    if fmt = some "addressName" && !jMem (jGetD field "params" (.obj [])) "types" then
      [fid ++ ": addressName without 'types' parameter"]
    else []
  let e3 : List String :=
    if fmt = some "enum" && !jMem (jGetD field "params" (.obj [])) "enumPath" then
      [fid ++ ": enum format requires 'enumPath' parameter"]
    else []
  ⟨e1 ++ e2 ++ e3, [], i1 ++ i2⟩

def checkFormat (signature : String) (formatDef : JsonV) : Findings :=
  let e1 : List String :=
    if !jMem formatDef "intent" then [signature ++ ": Missing 'intent'"] else []
  if !jMem formatDef "fields" then
    ⟨e1, [signature ++ ": Missing 'fields' array"], []⟩
  else
    Findings.append ⟨e1, [], []⟩
      (((jArrD formatDef "fields").enum.map
          (fun fi => checkField signature fi.1 fi.2)).foldl Findings.append Findings.none)

def checkDisplay (d : JsonV) : Findings :=
  let display := jGetD d "display" (.obj [])
  if !jMem display "formats" then ⟨["Missing display.formats"], [], []⟩
  else
    match jGet display "formats" with
    | some (.obj kvs) =>
      if kvs.isEmpty then ⟨[], ["No formats defined in display.formats"], []⟩
      else
        Findings.append ⟨[], [], ["Found " ++ toString kvs.length ++ " function format(s)"]⟩
          ((kvs.map (fun kv => checkFormat kv.1 kv.2)).foldl Findings.append Findings.none)
    | _ => Findings.none

def checkBestPractices (d : JsonV) : Findings :=
  let formats : List (String × JsonV) :=
    match jGetD (jGetD d "display" (.obj [])) "formats" (.obj []) with
    | .obj kvs => kvs
    | _ => []
  let i1 : List String :=
    formats.filterMap (fun kv =>
      if !jMem kv.2 "interpolatedIntent" && (jArrD kv.2 "fields").length > 0 then
        some (kv.1 ++ ": Consider adding 'interpolatedIntent' for better UX")
      else Option.none)
  let w1 : List String :=
    formats.flatMap (fun kv =>
      (jArrD kv.2 "fields").filterMap (fun f =>
        if !jMem f "label" && jMem f "format" then
          some (kv.1 ++ ": Field '" ++
            (match jGet f "path" with
             | some (.str p) => p
             | _ => "?") ++ "' missing label")
        else Option.none))
  ⟨[], w1, i1⟩

/-- `ERC7730Validator.validate` on an in-memory document (file loading and
JSON decoding are outside the model). -/
def validate (d : JsonV) : Findings :=
  (([checkStructure, checkSchemaUrl, checkContext, checkMetadata, checkDisplay,
     checkBestPractices].map (fun c => c d)).foldl Findings.append Findings.none)

def validateErrors (d : JsonV) : List String := (validate d).errors

/-- `main` of validate_erc7730.py: a file passes when its error list is
empty; the exit status is 0 exactly when every file passed. -/
def validatorMainExit (docs : List JsonV) : Nat :=
  if docs.all (fun d => (validateErrors d).isEmpty) then 0 else 1

/-! ### Concrete inputs used by the theorems below -/

/-- Source of the claimed end-to-end example: one external transfer
function with an implementation brace and no documentation block. -/
def c6src : String :=
  "contract Token \x7b\n    function transfer(address to, uint256 amount) external returns (bool) \x7b\n    \x7d\n\x7d"

def c6fn : FunctionSignature :=
  ⟨"transfer", [⟨"to", "address"⟩, ⟨"amount", "uint256"⟩], "external", none⟩

def c7doc : String := "/**\n * @notice Sends value.\n */"

def c5fn : FunctionSignature :=
  ⟨"transfer", [⟨"token", "address"⟩, ⟨"amount", "uint256"⟩], "external", none⟩

def c3funcs : List FunctionSignature :=
  [⟨"setFlag", [⟨"flag", "bool"⟩], "external", none⟩]

def c4lines : List (List Char) :=
  [toL "contract C \x7b", toL "    function g(address to) public \x7b", toL "    \x7d", toL "\x7d"]

def c4fn : FunctionSignature := ⟨"g", [⟨"to", "address"⟩], "public", none⟩

/-- Lines whose candidate function (index 3) is preceded by a blank line, a
single-line comment, and then a code line: the backward lookup aborts. -/
def c8lines : List (List Char) :=
  [toL "    uint256 x;", toL "    // note", toL "", toL "    function withdraw(uint256 amount) external \x7b"]

/-- The descriptor of the checker example: structurally valid except that
context has no dollar-id and the single deployment address is 0xABC. -/
def c9doc : JsonV :=
  .obj [("$schema", .str SCHEMA_URL),
        ("context", .obj [("contract", .obj [("deployments",
          .arr [.obj [("chainId", .num 1), ("address", .str "0xABC")]])])]),
        ("metadata", .obj [("owner", .str "Acme"), ("contractName", .str "Token"),
          ("info", .obj [("url", .str "https://acme.example"), ("legalName", .str "Acme")])]),
        ("display", .obj [("formats", .obj [("transfer(address,uint256)",
          .obj [("intent", .str "Transfer tokens"),
                ("interpolatedIntent", .str "Transfer tokens"),
                ("fields", .arr [.obj [("path", .str "to"), ("label", .str "To"),
                  ("format", .str "addressName"), ("params", addrParamsJson)]])])])])]

/-- No position of the text matches CONTRACT_PATTERN. -/
def noContractDecl (s : List Char) : Prop :=
  ∀ i : Nat, contractMatchAt (s.drop i) = none

/-- Bounded boolean version of `noContractDecl`. -/
def noContractDeclB (s : List Char) : Bool :=
  (List.range (s.length + 1)).all (fun i => (contractMatchAt (s.drop i)).isNone)

/-- A line the backward NatSpec scan skips while no block comment is open:
stripped it is blank or a single-line comment, and it does not end with
the block-comment close marker. -/
def skipLineB (l : List Char) : Bool :=
  !((toL "*/").isSuffixOf (pyStrip l)) &&
    ((pyStrip l).isEmpty || (toL "//").isPrefixOf (pyStrip l))

/-- A line that aborts the backward NatSpec scan: stripped it is nonempty,
not a single-line comment, and does not end with the close marker. -/
def abortLineB (l : List Char) : Bool :=
  !((toL "*/").isSuffixOf (pyStrip l)) && !(pyStrip l).isEmpty &&
    !((toL "//").isPrefixOf (pyStrip l))

/-! ### Combinator lemmas -/

theorem matchLit_self_append (a b : List Char) : matchLit a (a ++ b) = some b := by
  induction a with
  | nil => rfl
  | cons c rest ih => simp [matchLit, ih]

theorem searchAux_head {α : Type} (m : List Char → Option α) (s : List Char)
    (r : α) (h : m s = some r) : searchAux m s = some r := by
  cases s with
  | nil => simpa [searchAux] using h
  | cons c rest => simp [searchAux, h, oor]

theorem searchAux_none_of_all {α : Type} (m : List Char → Option α) :
    ∀ s : List Char, (∀ i : Nat, m (s.drop i) = none) → searchAux m s = none := by
  intro s
  induction s with
  | nil => intro h; simpa [searchAux] using h 0
  | cons c rest ih =>
    intro h
    have h0 : m (c :: rest) = none := by simpa using h 0
    have h1 : ∀ i, m (rest.drop i) = none := fun i => by
      simpa [List.drop_succ_cons] using h (i + 1)
    simp [searchAux, h0, oor, ih h1]

theorem contractMatchAt_nil : contractMatchAt [] = none := by decide

theorem noContractDecl_of_B {s : List Char} (h : noContractDeclB s = true) :
    noContractDecl s := by
  intro i
  by_cases hi : i ≤ s.length
  · have := List.all_eq_true.mp h i (List.mem_range.mpr (by omega))
    simpa [Option.isNone_iff_eq_none] using this
  · rw [List.drop_eq_nil_of_le (by omega)]
    exact contractMatchAt_nil

/-- Values produced by greedy `cls*` come from its continuation. -/
theorem clsStar_sat {α : Type} {P : α → Prop} (p : Char → Bool) :
    ∀ (s : List Char) (k : List Char → Option α),
      (∀ t r, k t = some r → P r) → ∀ r, clsStar p k s = some r → P r := by
  intro s
  induction s with
  | nil => intro k hk r h; exact hk [] r h
  | cons c rest ih =>
    intro k hk r h
    rw [clsStar] at h
    by_cases hc : p c
    · rw [if_pos hc] at h
      cases h1 : clsStar p k rest with
      | none => rw [h1] at h; simp only [oor] at h; exact hk _ _ h
      | some v =>
        rw [h1] at h; simp only [oor, Option.some.injEq] at h
        exact h ▸ ih k hk v h1
    · rw [if_neg hc] at h; exact hk _ _ h

theorem clsPlus_sat {α : Type} {P : α → Prop} (p : Char → Bool)
    (s : List Char) (k : List Char → Option α)
    (hk : ∀ t r, k t = some r → P r) (r : α) (h : clsPlus p k s = some r) : P r := by
  cases s with
  | nil => simp [clsPlus] at h
  | cons c rest =>
    rw [clsPlus] at h
    by_cases hc : p c
    · rw [if_pos hc] at h; exact clsStar_sat p rest k hk r h
    · rw [if_neg hc] at h; cases h

/-- Values produced by greedy capturing `(cls*)` come from its continuation. -/
theorem clsStarCapt_sat {α : Type} {P : α → Prop} (p : Char → Bool) :
    ∀ (s : List Char) (k : List Char → List Char → Option α),
      (∀ cap t r, k cap t = some r → P r) → ∀ r, clsStarCapt p k s = some r → P r := by
  intro s
  induction s with
  | nil => intro k hk r h; exact hk [] [] r h
  | cons c rest ih =>
    intro k hk r h
    rw [clsStarCapt] at h
    by_cases hc : p c
    · rw [if_pos hc] at h
      cases h1 : clsStarCapt p (fun cap rem => k (c :: cap) rem) rest with
      | none => rw [h1] at h; simp only [oor] at h; exact hk [] _ _ h
      | some v =>
        rw [h1] at h; simp only [oor, Option.some.injEq] at h
        exact h ▸ ih _ (fun cap t r hr => hk (c :: cap) t r hr) v h1
    · rw [if_neg hc] at h; exact hk [] _ _ h

theorem clsPlusCapt_sat {α : Type} {P : α → Prop} (p : Char → Bool)
    (s : List Char) (k : List Char → List Char → Option α)
    (hk : ∀ cap t r, k cap t = some r → P r) (r : α)
    (h : clsPlusCapt p k s = some r) : P r := by
  cases s with
  | nil => simp [clsPlusCapt] at h
  | cons c rest =>
    rw [clsPlusCapt] at h
    by_cases hc : p c
    · rw [if_pos hc] at h
      exact clsStarCapt_sat p rest _ (fun cap t r hr => hk (c :: cap) t r hr) r h
    · rw [if_neg hc] at h; cases h

/-- Values produced by lazy `(.*?)` come from its continuation. -/
theorem lazyStarCapt_sat {α : Type} {P : α → Prop} :
    ∀ (s : List Char) (k : List Char → List Char → Option α),
      (∀ cap t r, k cap t = some r → P r) → ∀ r, lazyStarCapt k s = some r → P r := by
  intro s
  induction s with
  | nil => intro k hk r h; exact hk [] [] r h
  | cons c rest ih =>
    intro k hk r h
    rw [lazyStarCapt] at h
    cases h1 : k [] (c :: rest) with
    | none =>
      rw [h1] at h; simp only [oor] at h
      exact ih _ (fun cap t r hr => hk (c :: cap) t r hr) r h
    | some v =>
      rw [h1] at h; simp only [oor, Option.some.injEq] at h
      exact h ▸ hk [] _ v h1

theorem searchAux_sat {α : Type} {P : α → Prop} (m : List Char → Option α)
    (hm : ∀ s r, m s = some r → P r) :
    ∀ (s : List Char) (r : α), searchAux m s = some r → P r := by
  intro s
  induction s with
  | nil => intro r h; exact hm [] r h
  | cons c rest ih =>
    intro r h
    rw [searchAux] at h
    cases h1 : m (c :: rest) with
    | none => rw [h1] at h; simp only [oor] at h; exact ih r h
    | some v =>
      rw [h1] at h; simp only [oor, Option.some.injEq] at h
      exact h ▸ hm _ v h1

/-! ### Scanner lemmas -/

theorem visAlt_vis {nm ps s : List Char} {r : List Char × List Char × List Char}
    (h : visAlt nm ps s = some r) :
    r.2.2 = toL "external" ∨ r.2.2 = toL "public" := by
  unfold visAlt at h
  cases h1 : matchLit (toL "external") s with
  | none =>
    rw [h1] at h; simp only [Option.map_none', oor] at h
    cases h2 : matchLit (toL "public") s with
    | none => rw [h2] at h; simp at h
    | some t =>
      rw [h2] at h; simp only [Option.map_some', Option.some.injEq] at h
      right; rw [← h]
  | some t =>
    rw [h1] at h; simp only [Option.map_some', oor, Option.some.injEq] at h
    left; rw [← h]

theorem functionMatchAt_vis {s : List Char} {r : List Char × List Char × List Char}
    (h : functionMatchAt s = some r) :
    r.2.2 = toL "external" ∨ r.2.2 = toL "public" := by
  unfold functionMatchAt at h
  cases h0 : matchLit (toL "function") s with
  | none => rw [h0] at h; cases h
  | some s1 =>
    rw [h0] at h
    refine clsPlus_sat (P := fun x => x.2.2 = toL "external" ∨ x.2.2 = toL "public") pySpaceB s1 _ ?_ r h
    intro s2 r h2
    refine clsPlusCapt_sat (P := fun x => x.2.2 = toL "external" ∨ x.2.2 = toL "public") wordB s2 _ ?_ r h2
    intro nm s3 r h3
    refine clsStar_sat (P := fun x => x.2.2 = toL "external" ∨ x.2.2 = toL "public") pySpaceB s3 _ ?_ r h3
    intro s4 r h4
    split at h4
    · refine lazyStarCapt_sat (P := fun x => x.2.2 = toL "external" ∨ x.2.2 = toL "public") _ _ ?_ r h4
      intro ps s6 r h6
      split at h6
      · refine clsStar_sat (P := fun x => x.2.2 = toL "external" ∨ x.2.2 = toL "public") pySpaceB _ _ ?_ r h6
        intro s8 r h8
        exact visAlt_vis h8
      · cases h6
    · cases h4

theorem searchFunction_vis {t nm ps vis}
    (h : searchFunction t = some (nm, ps, vis)) :
    vis = toL "external" ∨ vis = toL "public" := by
  have := searchAux_sat functionMatchAt
    (P := fun r => r.2.2 = toL "external" ∨ r.2.2 = toL "public")
    (fun s r hr => functionMatchAt_vis hr) t (nm, ps, vis) h
  simpa using this

/-- Inversion of `processLine`: a retained record has a visibility string
drawn from the alternation and passed the view/pure filter; its NatSpec
field is the `getNatspec` result of the same candidate line. -/
theorem processLine_inv {lines : List (List Char)} {i : Nat} {f : FunctionSignature}
    (h : processLine lines i = some f) :
    (f.visibility = "external" ∨ f.visibility = "public") ∧
    containsSub (toL "view") (getFunctionText lines i) = false ∧
    containsSub (toL "pure") (getFunctionText lines i) = false ∧
    f.natspec = (getNatspec lines i).map ofL := by
  unfold processLine at h
  split at h
  · split at h
    · next nm ps vis heq =>
      split at h
      · cases h
      · next hvp =>
        rw [Option.some.injEq] at h
        have hv : vis = toL "external" ∨ vis = toL "public" := searchFunction_vis heq
        have hview : containsSub (toL "view") (getFunctionText lines i) = false := by
          cases hx : containsSub (toL "view") (getFunctionText lines i)
          · rfl
          · exact absurd (by simp [hx]) hvp
        have hpure : containsSub (toL "pure") (getFunctionText lines i) = false := by
          cases hx : containsSub (toL "pure") (getFunctionText lines i)
          · rfl
          · exact absurd (by simp [hx]) hvp
        refine ⟨?_, hview, hpure, by rw [← h]⟩
        rw [← h]
        rcases hv with hv | hv <;> [left; right] <;> simp [hv, ofL, toL]
    · cases h
  · cases h

theorem natspecLoop_skip :
    ∀ (ms tail : List (List Char)), (∀ l ∈ ms, skipLineB l = true) →
      natspecLoop (ms ++ tail) [] false = natspecLoop tail [] false := by
  intro ms
  induction ms with
  | nil => intro tail _; rfl
  | cons a rest ih =>
    intro tail hms
    have ha : skipLineB a = true := hms a (by simp)
    have h1 : ((toL "*/").isSuffixOf (pyStrip a)) = false := by
      simp only [skipLineB, Bool.and_eq_true, Bool.not_eq_true'] at ha
      exact ha.1
    have h2 : (!(pyStrip a).isEmpty && !((toL "//").isPrefixOf (pyStrip a))) = false := by
      simp only [skipLineB, Bool.and_eq_true, Bool.not_eq_true'] at ha
      rcases Bool.or_eq_true_iff.mp ha.2 with h | h <;> simp [h]
    rw [List.cons_append, natspecLoop, h1]
    simp only [Bool.false_eq_true, if_false, h2]
    exact ih tail (fun l hl => hms l (by simp [hl]))

theorem natspecLoop_abort {L : List Char} (tail : List (List Char))
    (h : abortLineB L = true) : natspecLoop (L :: tail) [] false = [] := by
  simp only [abortLineB, Bool.and_eq_true, Bool.not_eq_true'] at h
  rw [natspecLoop, h.1.1]
  simp [h.1.2, h.2]

/-- The backward documentation lookup returns nothing when, scanning up
from the candidate, every line until `L` is skippable and `L` aborts. -/
theorem getNatspec_abort (pre mid rest : List (List Char)) (L : List Char)
    (hmid : ∀ l ∈ mid, skipLineB l = true) (hL : abortLineB L = true) :
    getNatspec ((pre ++ L :: mid) ++ rest) (pre ++ L :: mid).length = none := by
  have htake : ((pre ++ L :: mid) ++ rest).take (pre ++ L :: mid).length = pre ++ L :: mid :=
    List.take_left _ _
  have hrev : (pre ++ L :: mid).reverse = mid.reverse ++ L :: pre.reverse := by
    simp [List.reverse_append]
  have hloop : natspecLoop ((pre ++ L :: mid).reverse) [] false = [] := by
    rw [hrev, natspecLoop_skip mid.reverse (L :: pre.reverse)
      (fun l hl => hmid l (List.mem_reverse.mp hl))]
    exact natspecLoop_abort pre.reverse hL
  unfold getNatspec
  rw [htake, hloop]

/-! ### CONTRACT_PATTERN success lemmas -/

theorem wordB_not_space {c : Char} (h : pySpaceB c = true) : wordB c = false := by
  simp only [pySpaceB, Bool.or_eq_true, decide_eq_true_eq] at h
  rcases h with ((((h | h) | h) | h) | h) | h <;> subst h <;> decide

theorem word_not_space {c : Char} (h : wordB c = true) : pySpaceB c = false := by
  cases hs : pySpaceB c
  · rfl
  · rw [wordB_not_space hs] at h; cases h

theorem oor_none_right {α : Type} (a : Option α) : oor a none = a := by
  cases a <;> rfl

theorem brSp_sat {α : Type} {P : α → Prop} (k : List Char → Option α)
    (hk : ∀ t r, k t = some r → P r) :
    ∀ s r, brSp k s = some r → P r := by
  intro s r h
  cases s with
  | nil => cases h
  | cons c rest =>
    rw [brSp] at h
    split at h
    · exact hk _ _ h
    · cases h

theorem contractTail_sat {α : Type} {P : α → Prop} (k : List Char → Option α)
    (hk : ∀ t r, k t = some r → P r) :
    ∀ s r, contractTail k s = some r → P r := by
  intro s r h
  unfold contractTail at h
  cases h1 : matchLit (toL "is") s with
  | none =>
    rw [h1] at h
    dsimp only [oor] at h
    exact brSp_sat k hk s r h
  | some s1 =>
    rw [h1] at h
    dsimp only at h
    cases h2 : clsPlus pySpaceB (brSp k) s1 with
    | none =>
      rw [h2] at h
      dsimp only [oor] at h
      exact brSp_sat k hk s r h
    | some v =>
      rw [h2] at h
      dsimp only [oor] at h
      rw [Option.some.injEq] at h
      exact h ▸ clsPlus_sat pySpaceB s1 (brSp k) (brSp_sat k hk) v h2

theorem brSp_const {w : List Char} {t : List Char} {r : List Char}
    (h : brSp (fun _ => some w) t = some r) : r = w :=
  brSp_sat (P := fun r => r = w) _ (fun _ _ hr => (Option.some.inj hr).symm) t r h

theorem contractTail_const {w : List Char} {t : List Char} {r : List Char}
    (h : contractTail (fun _ => some w) t = some r) : r = w :=
  contractTail_sat (P := fun r => r = w) _ (fun _ _ hr => (Option.some.inj hr).symm) t r h

/-- Greedy `cls*` over a run of class characters followed by a non-class
character reduces to the continuation at the non-class character, when the
continuation rejects every class-headed remainder. -/
theorem clsStar_skip {α : Type} (p : Char → Bool) :
    ∀ (ws : List Char), (∀ c ∈ ws, p c = true) →
      ∀ (c0 : Char) (t : List Char) (k : List Char → Option α),
        p c0 = false → (∀ d rem, p d = true → k (d :: rem) = none) →
        clsStar p k (ws ++ c0 :: t) = k (c0 :: t) := by
  intro ws
  induction ws with
  | nil =>
    intro _ c0 t k h0 _
    simp only [List.nil_append, clsStar, h0, Bool.false_eq_true, if_false]
  | cons a ws2 ih =>
    intro hws c0 t k h0 hk
    have ha : p a = true := hws a (by simp)
    simp only [List.cons_append, clsStar, ha, if_true, List.append_eq]
    rw [ih (fun c hc => hws c (by simp [hc])) c0 t k h0 hk, hk a _ ha, oor_none_right]

/-- Greedy capturing `(cls*)` over a class run followed by a non-class
character captures exactly the run, when the continuation rejects every
class-headed remainder. -/
theorem clsStarCapt_unique {α : Type} (p : Char → Bool) :
    ∀ (w : List Char), (∀ c ∈ w, p c = true) →
      ∀ (c0 : Char) (t : List Char) (k : List Char → List Char → Option α),
        p c0 = false → (∀ cap d rem, p d = true → k cap (d :: rem) = none) →
        clsStarCapt p k (w ++ c0 :: t) = k w (c0 :: t) := by
  intro w
  induction w with
  | nil =>
    intro _ c0 t k h0 _
    simp only [List.nil_append, clsStarCapt, h0, Bool.false_eq_true, if_false]
  | cons a w2 ih =>
    intro hw c0 t k h0 hk
    have ha : p a = true := hw a (by simp)
    simp only [List.cons_append, clsStarCapt, ha, if_true, List.append_eq]
    rw [ih (fun c hc => hw c (by simp [hc])) c0 t (fun cap rem => k (a :: cap) rem) h0
      (fun cap d rem hd => hk (a :: cap) d rem hd)]
    rw [hk [] a _ ha, oor_none_right]

theorem clsPlusCapt_unique {α : Type} (p : Char → Bool) (w : List Char)
    (hw0 : w ≠ []) (hw : ∀ c ∈ w, p c = true) (c0 : Char) (t : List Char)
    (k : List Char → List Char → Option α)
    (h0 : p c0 = false) (hk : ∀ cap d rem, p d = true → k cap (d :: rem) = none) :
    clsPlusCapt p k (w ++ c0 :: t) = k w (c0 :: t) := by
  cases w with
  | nil => exact absurd rfl hw0
  | cons a w2 =>
    have ha : p a = true := hw a (by simp)
    simp only [List.cons_append, clsPlusCapt, ha, if_true, List.append_eq]
    exact clsStarCapt_unique p w2 (fun c hc => hw c (by simp [hc])) c0 t _ h0
      (fun cap d rem hd => hk (a :: cap) d rem hd)

/-- The tail `(?:is backslash-s+)? [{ backslash-s]` accepts a brace or a
whitespace character directly. -/
theorem contractTail_start {w : List Char} {c0 : Char} (rest : List Char)
    (hc0 : c0 = '{' ∨ pySpaceB c0 = true) :
    contractTail (fun _ => some w) (c0 :: rest) = some w := by
  unfold contractTail
  have hm : matchLit (toL "is") (c0 :: rest) = none := by
    have his : toL "is" = 'i' :: 's' :: [] := rfl
    rw [his, matchLit, if_neg]
    intro he
    cases hc0 with
    | inl h => rw [h] at he; cases he
    | inr h => rw [← he] at h; exact absurd h (by decide)
  rw [hm]
  dsimp only [oor]
  rw [brSp, if_pos]
  cases hc0 with
  | inl h => simp [h]
  | inr h => simp [h]

/-- The whitespace-then-tail stretch after the identifier succeeds when a
whitespace character is followed by a brace or another whitespace
character. -/
theorem tailMatch_direct {w : List Char} {sp c0 : Char} (rest : List Char)
    (hsp : pySpaceB sp = true) (hc0 : c0 = '{' ∨ pySpaceB c0 = true) :
    clsPlus pySpaceB (fun s4 => contractTail (fun _ => some w) s4)
      (sp :: c0 :: rest) = some w := by
  rw [clsPlus, if_pos hsp]
  cases hc0 with
  | inl h =>
    subst h
    rw [clsStar, if_neg (by decide)]
    exact contractTail_start rest (Or.inl rfl)
  | inr h =>
    rw [clsStar, if_pos h]
    have h2 : contractTail (fun _ => some w) (c0 :: rest) = some w :=
      contractTail_start rest (Or.inr h)
    cases h1 : clsStar pySpaceB (fun s4 => contractTail (fun _ => some w) s4) rest with
    | none => dsimp only [oor]; exact h2
    | some v =>
      have hv : v = w :=
        clsStar_sat pySpaceB rest _ (fun t r hr => contractTail_const hr) v h1
      rw [hv]
      rfl

/-- The whitespace-then-tail stretch also succeeds through the `is` clause
when `is` is immediately followed by whitespace and then a brace or more
whitespace. -/
theorem tailMatch_is {w : List Char} {sp sp2 c0 : Char} (rest : List Char)
    (hsp : pySpaceB sp = true) (hsp2 : pySpaceB sp2 = true)
    (hc0 : c0 = '{' ∨ pySpaceB c0 = true) :
    clsPlus pySpaceB (fun s4 => contractTail (fun _ => some w) s4)
      (sp :: 'i' :: 's' :: sp2 :: c0 :: rest) = some w := by
  rw [clsPlus, if_pos hsp]
  rw [clsStar, if_neg (by decide)]
  unfold contractTail
  have hm : matchLit (toL "is") ('i' :: 's' :: sp2 :: c0 :: rest) =
      some (sp2 :: c0 :: rest) := rfl
  rw [hm]
  dsimp only
  have hin : clsPlus pySpaceB (brSp (fun _ => some w)) (sp2 :: c0 :: rest) = some w := by
    rw [clsPlus, if_pos hsp2]
    have h2 : brSp (fun _ => some w) (c0 :: rest) = some w := by
      rw [brSp, if_pos]
      cases hc0 with
      | inl h => simp [h]
      | inr h => simp [h]
    cases hc0 with
    | inl h =>
      subst h
      rw [clsStar, if_neg (by decide)]
      exact h2
    | inr h =>
      rw [clsStar, if_pos h]
      cases h1 : clsStar pySpaceB (brSp (fun _ => some w)) rest with
      | none => dsimp only [oor]; exact h2
      | some v =>
        have hv : v = w :=
          clsStar_sat pySpaceB rest _ (fun t r hr => brSp_const hr) v h1
        rw [hv]
        rfl
  rw [hin]
  rfl

/-- CONTRACT_PATTERN matched at a position: any nonempty whitespace run
after the keyword, any identifier, then a whitespace-headed tail on which
the remaining pattern succeeds; the capture is exactly the identifier. -/
theorem contractMatchAt_general (ws1 w : List Char) (sp : Char) (t2 : List Char)
    (hws0 : ws1 ≠ []) (hws : ∀ c ∈ ws1, pySpaceB c = true)
    (hw0 : w ≠ []) (hw : ∀ c ∈ w, wordB c = true)
    (hsp : pySpaceB sp = true)
    (htail : clsPlus pySpaceB (fun s4 => contractTail (fun _ => some w) s4)
      (sp :: t2) = some w) :
    contractMatchAt (toL "contract" ++ ws1 ++ w ++ sp :: t2) = some w := by
  have hassoc : toL "contract" ++ ws1 ++ w ++ sp :: t2 =
      toL "contract" ++ (ws1 ++ (w ++ sp :: t2)) := by
    simp [List.append_assoc]
  rw [hassoc]
  unfold contractMatchAt
  rw [matchLit_self_append (toL "contract") (ws1 ++ (w ++ sp :: t2))]
  dsimp only
  cases ws1 with
  | nil => exact absurd rfl hws0
  | cons b ws1₂ =>
    have hb : pySpaceB b = true := hws b (by simp)
    rw [List.cons_append, clsPlus, if_pos hb]
    cases w with
    | nil => exact absurd rfl hw0
    | cons a w2 =>
      have ha : wordB a = true := hw a (by simp)
      rw [List.cons_append]
      rw [clsStar_skip pySpaceB ws1₂ (fun c hc => hws c (by simp [hc])) a (w2 ++ sp :: t2)
        _ (word_not_space ha)
        (fun d rem hd => by
          simp only [clsPlusCapt, wordB_not_space hd, Bool.false_eq_true, if_false])]
      rw [← List.cons_append]
      rw [clsPlusCapt_unique wordB (a :: w2) (by simp) hw sp t2 _
        (wordB_not_space hsp)
        (fun cap d rem hd => by
          simp only [clsPlus, word_not_space hd, Bool.false_eq_true, if_false])]
      exact htail

/-- `re.search` returns the match of the leftmost matching position. -/
theorem searchAux_leftmost {α : Type} (m : List Char → Option α) :
    ∀ (i : Nat) (s : List Char) (r : α),
      (∀ j, j < i → m (s.drop j) = none) → m (s.drop i) = some r →
      searchAux m s = some r := by
  intro i
  induction i with
  | zero =>
    intro s r _ hm
    exact searchAux_head m s r (by simpa using hm)
  | succ n ih =>
    intro s r hj hm
    cases s with
    | nil =>
      have h0 : m [] = none := by simpa using hj 0 (Nat.succ_pos n)
      rw [List.drop_nil] at hm
      rw [h0] at hm
      cases hm
    | cons c rest =>
      have h0 : m (c :: rest) = none := by simpa using hj 0 (Nat.succ_pos n)
      rw [searchAux, h0]
      dsimp only [oor]
      exact ih rest r
        (fun j hjn => by simpa [List.drop_succ_cons] using hj (j + 1) (by omega))
        (by simpa [List.drop_succ_cons] using hm)

theorem addressName_only (p : FunctionParameter)
    (h : p.get_format = "addressName") : p.type = "address" := by
  by_cases hc : p.type = "address"
  · exact hc
  · exfalso
    unfold FunctionParameter.get_format at h
    rw [if_neg hc] at h
    split at h
    · split at h
      · exact absurd h (by decide)
      · split at h
        · exact absurd h (by decide)
        · split at h
          · exact absurd h (by decide)
          · split at h <;> exact absurd h (by decide)
    · split at h
      · split at h <;> exact absurd h (by decide)
      · split at h
        · exact absurd h (by decide)
        · split at h
          · exact absurd h (by decide)
          · split at h <;> exact absurd h (by decide)

/-! ### Claim theorems -/

/-- C1: for every source text containing no contract declaration (no
position of the text matches CONTRACT_PATTERN), parsing raises the
structural NoContractFound error, the process exits with status 1, and no
descriptor document is produced. -/
theorem claim1_no_contract_fails (content : String) (chainId : Int)
    (address owner contractId : Option String)
    (h : noContractDecl (toL content)) :
    SolidityParser.parse content = .error "Could not find contract declaration" ∧
    mainRun content chainId address owner contractId = (1, none) := by
  have hs : searchContract (toL content) = none :=
    searchAux_none_of_all contractMatchAt _ h
  constructor
  · unfold SolidityParser.parse
    rw [hs]
  · unfold mainRun SolidityParser.parse
    rw [hs]

/-- Witness: C1 applied to a concrete source without a contract declaration. -/
theorem claim1_no_contract_fails_witness :
    SolidityParser.parse "pragma solidity ^0.8.0;" =
      .error "Could not find contract declaration" ∧
    mainRun "pragma solidity ^0.8.0;" 1 none none none = (1, none) :=
  claim1_no_contract_fails "pragma solidity ^0.8.0;" 1 none none none
    (noContractDecl_of_B (by decide))

/-- C2 counterexample: scanning fails with NoContractFound on
`contract Foo` followed immediately by a brace, and also on
`contract Foo is Bar` followed by a brace, contrary to the claim that both
succeed: the pattern demands whitespace after the identifier, and after
`is` plus whitespace it demands a brace or whitespace, not a base name. -/
theorem claim2_counterexample :
    SolidityParser.parse "contract Foo\x7b" =
      .error "Could not find contract declaration" ∧
    SolidityParser.parse "contract Foo is Bar \x7b" =
      .error "Could not find contract declaration" :=
  ⟨rfl, rfl⟩

/-- C2 amended: at any position, CONTRACT_PATTERN matches exactly when the
keyword `contract` is followed by whitespace, an identifier, and then
whitespace followed by an opening brace or a second whitespace character
(the optional `is` clause matches only when itself immediately followed by
a brace or whitespace), capturing the identifier; scanning uses the first
matching occurrence of any source text and returns its identifier; a brace
immediately after the identifier, or a named base between `is` and the
brace, fails. -/
theorem claim2_amended :
    (∀ (ws1 w : List Char) (sp c0 : Char) (rest : List Char),
        ws1 ≠ [] → (∀ c ∈ ws1, pySpaceB c = true) →
        w ≠ [] → (∀ c ∈ w, wordB c = true) →
        pySpaceB sp = true → (c0 = '{' ∨ pySpaceB c0 = true) →
        contractMatchAt (toL "contract" ++ ws1 ++ w ++ sp :: c0 :: rest) = some w) ∧
    (∀ (ws1 w : List Char) (sp sp2 c0 : Char) (rest : List Char),
        ws1 ≠ [] → (∀ c ∈ ws1, pySpaceB c = true) →
        w ≠ [] → (∀ c ∈ w, wordB c = true) →
        pySpaceB sp = true → pySpaceB sp2 = true → (c0 = '{' ∨ pySpaceB c0 = true) →
        contractMatchAt
          (toL "contract" ++ ws1 ++ w ++ sp :: 'i' :: 's' :: sp2 :: c0 :: rest) = some w) ∧
    (∀ (s : List Char) (i : Nat) (w : List Char),
        (∀ j, j < i → contractMatchAt (s.drop j) = none) →
        contractMatchAt (s.drop i) = some w →
        searchContract s = some w ∧
        SolidityParser.parse (ofL s) = .ok (ofL w, parseFunctions (ofL s))) ∧
    SolidityParser.parse "contract Alpha \x7b contract Beta \x7b" = .ok ("Alpha", []) ∧
    SolidityParser.parse "contract Foo\x7b" =
      .error "Could not find contract declaration" ∧
    SolidityParser.parse "contract Foo is Bar \x7b" =
      .error "Could not find contract declaration" := by
  refine ⟨?_, ?_, ?_, rfl, rfl, rfl⟩
  · intro ws1 w sp c0 rest hws0 hws hw0 hw hsp hc0
    exact contractMatchAt_general ws1 w sp (c0 :: rest) hws0 hws hw0 hw hsp
      (tailMatch_direct rest hsp hc0)
  · intro ws1 w sp sp2 c0 rest hws0 hws hw0 hw hsp hsp2 hc0
    exact contractMatchAt_general ws1 w sp ('i' :: 's' :: sp2 :: c0 :: rest) hws0 hws hw0 hw hsp
      (tailMatch_is rest hsp hsp2 hc0)
  · intro s i w hj hm
    have hsearch : searchContract s = some w := searchAux_leftmost contractMatchAt i s w hj hm
    refine ⟨hsearch, ?_⟩
    unfold SolidityParser.parse
    have hts : toL (ofL s) = s := rfl
    rw [hts, hsearch]

/-- Witness: C2 amended applied to a brace-after-whitespace match and to a
source whose contract declaration sits after a pragma line. -/
theorem claim2_amended_witness :
    contractMatchAt (toL "contract" ++ [' '] ++ toL "Foo" ++ ' ' :: '{' :: []) =
      some (toL "Foo") ∧
    SolidityParser.parse "pragma solidity;\ncontract Foo \x7b\x7d" = .ok ("Foo", []) := by
  constructor
  · exact claim2_amended.1 [' '] (toL "Foo") ' ' '{' [] (by decide) (by decide)
      (by decide) (by decide) (by decide) (Or.inl rfl)
  · have hall : (List.range 17).all
        (fun j => (contractMatchAt
          ((toL "pragma solidity;\ncontract Foo \x7b\x7d").drop j)).isNone) = true := by
      decide
    exact (claim2_amended.2.2.1 (toL "pragma solidity;\ncontract Foo \x7b\x7d") 17 (toL "Foo")
      (fun j hj => by
        simpa [Option.isNone_iff_eq_none] using
          List.all_eq_true.mp hall j (List.mem_range.mpr hj))
      (by decide)).2

/-- C3: the classifier yields tokenAmount for (amount, uint256), date for
(deadline, uint256), addressName for (to, address) and enum for any bool
parameter; a bool field references the shared boolean enum, and the
metadata declares enums.boolean with values False and True whenever some
function has a bool parameter. -/
theorem claim3_classifier :
    (FunctionParameter.get_format ⟨"amount", "uint256"⟩ = "tokenAmount" ∧
     FunctionParameter.get_format ⟨"deadline", "uint256"⟩ = "date" ∧
     FunctionParameter.get_format ⟨"to", "address"⟩ = "addressName") ∧
    (∀ nm : String, FunctionParameter.get_format ⟨nm, "bool"⟩ = "enum") ∧
    (∀ (nm : String) (f : FunctionSignature),
        jGet (generate_field_spec ⟨nm, "bool"⟩ f) "params" =
          some (.obj [("enumPath", .str "$.metadata.enums.boolean")])) ∧
    (∀ (ow cn : String) (funcs : List FunctionSignature), hasBoolParam funcs = true →
        jGet (generate_metadata ow cn funcs) "enums" =
          some (.obj [("boolean", boolEnumJson)])) := by
  refine ⟨⟨rfl, rfl, rfl⟩, fun _ => rfl, fun _ _ => rfl, ?_⟩
  intro ow cn funcs h
  simp only [generate_metadata, h, if_true]
  rfl

/-- Witness: C3 applied to a function list with one bool parameter. -/
theorem claim3_classifier_witness :
    jGet (generate_metadata "Acme" "Flag" c3funcs) "enums" =
      some (.obj [("boolean", boolEnumJson)]) :=
  claim3_classifier.2.2.2 "Acme" "Flag" c3funcs (by decide)

/-- C4: every function record retained by the scanner has visibility
external or public and its concatenated signature text contains neither
view nor pure; the second part lifts the visibility invariant to every
record of a whole-source scan. -/
theorem claim4_retained_invariant :
    (∀ (lines : List (List Char)) (i : Nat) (f : FunctionSignature),
        processLine lines i = some f →
        (f.visibility = "external" ∨ f.visibility = "public") ∧
        containsSub (toL "view") (getFunctionText lines i) = false ∧
        containsSub (toL "pure") (getFunctionText lines i) = false) ∧
    (∀ (content : String) (f : FunctionSignature), f ∈ parseFunctions content →
        f.visibility = "external" ∨ f.visibility = "public") := by
  constructor
  · intro lines i f h
    have hinv := processLine_inv h
    exact ⟨hinv.1, hinv.2.1, hinv.2.2.1⟩
  · intro content f hf
    simp only [parseFunctions] at hf
    obtain ⟨i, _, hi⟩ := List.mem_filterMap.mp hf
    exact (processLine_inv hi).1

/-- Witness: C4 applied to a retained public function. -/
theorem claim4_retained_invariant_witness :
    (c4fn.visibility = "external" ∨ c4fn.visibility = "public") ∧
    containsSub (toL "view") (getFunctionText c4lines 1) = false ∧
    containsSub (toL "pure") (getFunctionText c4lines 1) = false :=
  claim4_retained_invariant.1 c4lines 1 c4fn (by decide)

/-- C5: a tokenAmount field gets a tokenPath equal to the name of the
first address-typed parameter of the same function whose name contains
token (case-insensitively), and no params object when none exists; for
parameters (address token, uint256 amount) the amount field's tokenPath is
token. -/
theorem claim5_token_path :
    (∀ (p : FunctionParameter) (f : FunctionSignature),
        pyEndsWithS p.type "[]" = false → p.get_format = "tokenAmount" →
        (∀ tp, find_token_param f = some tp →
            jGet (generate_field_spec p f) "params" =
              some (.obj [("tokenPath", .str tp.name)])) ∧
        (find_token_param f = none → jGet (generate_field_spec p f) "params" = none)) ∧
    find_token_param c5fn = some ⟨"token", "address"⟩ ∧
    jGet (generate_field_spec ⟨"amount", "uint256"⟩ c5fn) "params" =
      some (.obj [("tokenPath", .str "token")]) := by
  refine ⟨?_, rfl, rfl⟩
  intro p f h1 h2
  constructor
  · intro tp htp
    simp only [generate_field_spec, h1, Bool.false_eq_true, if_false, h2, htp]
    rfl
  · intro hnone
    simp only [generate_field_spec, h1, Bool.false_eq_true, if_false, h2, hnone]
    rfl

/-- Witness: C5 applied to the amount parameter of the concrete function
with parameters (address token, uint256 amount). -/
theorem claim5_token_path_witness :
    jGet (generate_field_spec ⟨"amount", "uint256"⟩ c5fn) "params" =
      some (.obj [("tokenPath", .str "token")]) :=
  (claim5_token_path.1 ⟨"amount", "uint256"⟩ c5fn (by decide) (by decide)).1
    ⟨"token", "address"⟩ (by decide)

/-- C6: the end-to-end example: the transfer source parses to one external
function with no documentation, keyed transfer(address,uint256), whose
format spec has intent Transfer tokens, interpolated intent
Transfer tokens {to} {amount}, and exactly the two fields addressName
then tokenAmount. -/
theorem claim6_end_to_end :
    SolidityParser.parse c6src = .ok ("Token", [c6fn]) ∧
    c6fn.get_signature = "transfer(address,uint256)" ∧
    generate_display [c6fn] = .obj [("formats", .obj [("transfer(address,uint256)",
      .obj [("intent", .str "Transfer tokens"),
            ("fields", .arr [
              .obj [("path", .str "to"), ("label", .str "To"),
                    ("format", .str "addressName"), ("params", addrParamsJson)],
              .obj [("path", .str "amount"), ("label", .str "Amount"),
                    ("format", .str "tokenAmount")]]),
            ("interpolatedIntent", .str "Transfer tokens {to} {amount}")])])] :=
  ⟨rfl, rfl, rfl⟩

/-- C7: a documentation block with a notice marker yields the notice text
up to the first period as the intent, for every function name, overriding
the name-prefix fallback (which would give Transfer tokens here). -/
theorem claim7_notice_overrides :
    (∀ (nm : String) (ps : List FunctionParameter) (vis : String),
        FunctionSignature.get_intent ⟨nm, ps, vis, some c7doc⟩ = "Sends value") ∧
    FunctionSignature.get_intent ⟨"transfer", [], "external", some c7doc⟩ = "Sends value" ∧
    FunctionSignature.get_intent ⟨"transfer", [], "external", none⟩ = "Transfer tokens" :=
  ⟨fun _ _ _ => rfl, rfl, rfl⟩

/-- Witness: C7 applied to a function whose fallback would differ. -/
theorem claim7_notice_overrides_witness :
    FunctionSignature.get_intent ⟨"withdraw", [], "public", some c7doc⟩ = "Sends value" :=
  claim7_notice_overrides.1 "withdraw" [] "public"

/-- C8: when the backward documentation lookup, scanning up from the
candidate and skipping blank and single-line comment lines, meets a
non-comment non-blank line before any block-comment close marker, the
lookup aborts: the candidate gets no documentation text. -/
theorem claim8_natspec_abort :
    ∀ (pre mid rest : List (List Char)) (L : List Char),
      (∀ l ∈ mid, skipLineB l = true) → abortLineB L = true →
      getNatspec ((pre ++ L :: mid) ++ rest) (pre ++ L :: mid).length = none ∧
      (∀ f, processLine ((pre ++ L :: mid) ++ rest) (pre ++ L :: mid).length = some f →
          f.natspec = none) := by
  intro pre mid rest L hmid hL
  have hns := getNatspec_abort pre mid rest L hmid hL
  refine ⟨hns, ?_⟩
  intro f hf
  rw [(processLine_inv hf).2.2.2, hns]
  rfl

/-- Witness: C8 applied to a candidate preceded by a blank line, a
single-line comment, and a code line. -/
theorem claim8_natspec_abort_witness : getNatspec c8lines 3 = none :=
  (claim8_natspec_abort [] [toL "    // note", toL ""]
    [toL "    function withdraw(uint256 amount) external \x7b"]
    (toL "    uint256 x;") (by decide) (by decide)).1

/-- C9: the checker reports exactly the two claimed errors on the document
missing its context identifier and carrying the 5-character deployment
address, exits non-zero on it, and in general exits 0 exactly when no
errors were found. -/
theorem claim9_checker :
    validateErrors c9doc =
      ["Missing context.$id", "Deployment 0 has invalid address format: 0xABC"] ∧
    validatorMainExit [c9doc] = 1 ∧
    (∀ docs : List JsonV, validatorMainExit docs = 0 ↔ ∀ d ∈ docs, validateErrors d = []) := by
  refine ⟨by decide, by decide, ?_⟩
  intro docs
  have hiff : validatorMainExit docs = 0 ↔
      docs.all (fun d => (validateErrors d).isEmpty) = true := by
    unfold validatorMainExit
    split
    · simp_all
    · simp_all
  rw [hiff, List.all_eq_true]
  constructor
  · intro h d hd
    exact List.isEmpty_iff.mp (h d hd)
  · intro h d hd
    exact List.isEmpty_iff.mpr (h d hd)

/-- Witness: C9 exit equivalence applied to the empty batch. -/
theorem claim9_checker_witness :
    validatorMainExit [] = 0 ↔ ∀ d ∈ ([] : List JsonV), validateErrors d = [] :=
  claim9_checker.2.2 []

/-- C10: every field whose format is addressName comes from a parameter of
declared type exactly address, and is emitted with the fixed params object
listing types eoa and contract and source trust. -/
theorem claim10_addressName_params (p : FunctionParameter) (f : FunctionSignature)
    (h : p.get_format = "addressName") :
    p.type = "address" ∧
    jGet (generate_field_spec p f) "params" = some addrParamsJson ∧
    jGet (generate_field_spec p f) "format" = some (.str "addressName") := by
  obtain ⟨nm, ty⟩ := p
  have hty : ty = "address" := addressName_only ⟨nm, ty⟩ h
  subst hty
  exact ⟨rfl, rfl, rfl⟩

/-- Witness: C10 applied to the parameter (to, address). -/
theorem claim10_addressName_params_witness :
    (⟨"to", "address"⟩ : FunctionParameter).type = "address" ∧
    jGet (generate_field_spec ⟨"to", "address"⟩ c6fn) "params" = some addrParamsJson ∧
    jGet (generate_field_spec ⟨"to", "address"⟩ c6fn) "format" =
      some (.str "addressName") :=
  claim10_addressName_params ⟨"to", "address"⟩ c6fn (by decide)
